import Mathlib

/-
  Verification development for the vstream real-time speech-recognition server.

  Shallow embedding of the components the specification claims talk about:
  benchmark_manager (tokenization, Levenshtein/WER/CER), webrtc_vad,
  vstream_engine, audio_processor, vstream_app (WebSocket audio callback and
  command-line parsing) and mic_capture.  External collaborators (the fvad
  frame classifier, the Vosk recognizer, wall-clock time, the VAD verdict seen
  by the audio processor) are modelled as oracle parameters supplied by the
  environment, so every theorem quantifies over all of their behaviours.
-/

namespace VStream

/-- ASCII model of C isspace: space, \t, \n, \v, \f, \r. -/
def isSpaceC (c : Char) : Bool :=
  c == ' ' || c == '\t' || c == '\n' || c == '\x0b' || c == '\x0c' || c == '\r'

/-- ASCII model of C tolower. -/
def toLowerC (c : Char) : Char :=
  if 'A' ≤ c ∧ c ≤ 'Z' then Char.ofNat (c.toNat + 32) else c

/-- ASCII model of C isalnum. -/
def isAlnumC (c : Char) : Bool :=
  ('0' ≤ c && c ≤ '9') || ('a' ≤ c && c ≤ 'z') || ('A' ≤ c && c ≤ 'Z')

namespace benchmark_manager

/-- Whitespace splitting as done by repeated stream extraction
(std::istringstream followed by operator arrow-arrow): maximal runs of
non-whitespace characters, in order.  The first argument accumulates the
current word in reverse. -/
def splitWordsAux : List Char → List Char → List (List Char)
  | [], acc => if acc = [] then [] else [acc.reverse]
  | c :: cs, acc =>
      if isSpaceC c then
        if acc = [] then splitWordsAux cs []
        else acc.reverse :: splitWordsAux cs []
      else splitWordsAux cs (c :: acc)

/-- benchmark_manager::tokenize: whitespace-split, lowercase each word,
erase non-alphanumeric characters, drop words that became empty. -/
def tokenize (text : String) : List String :=
  ((splitWordsAux text.data []).map
      (fun w => (w.map toLowerC).filter (fun c => isAlnumC c))).filter
    (fun w => w ≠ []) |>.map (fun w => String.mk w)

/-- Textbook Levenshtein distance with unit costs for substitution, deletion
and insertion (the specification-side definition, consuming from the front).
This is the reference definition the code's DP table is compared against. -/
def levSpec : List String → List String → Nat
  | [], ys => ys.length
  | x :: xs, [] => (x :: xs).length
  | x :: xs, y :: ys =>
      if x = y then levSpec xs ys
      else 1 + min (levSpec xs (y :: ys)) (min (levSpec (x :: xs) ys) (levSpec xs ys))
  termination_by xs ys => (xs.length, ys.length)

/-- Row i+1 of the DP table filled by benchmark_manager::levenshtein_distance,
computed from row i (prev): dp[i+1][0] = i+1, and dp[i+1][j+1] = dp[i][j] when
ref[i] = hyp[j], otherwise 1 + min(dp[i][j+1], dp[i+1][j], dp[i][j])
(the code's std::min initializer-list order: deletion, insertion, substitution). -/
def dpNext (ref hyp : List String) (prev : Nat → Nat) (i : Nat) : Nat → Nat
  | 0 => i + 1
  | j + 1 =>
      if ref.getD i "" = hyp.getD j "" then prev j
      else 1 + min (min (prev (j + 1)) (dpNext ref hyp prev i j)) (prev j)

/-- Entry (i, j) of the DP table: row 0 is 0, 1, 2, ... and each later row is
produced by dpNext from its predecessor, exactly as the nested fill loops do. -/
def dpEntry (ref hyp : List String) : Nat → Nat → Nat
  | 0 => fun j => j
  | i + 1 => dpNext ref hyp (dpEntry ref hyp i) i

/-- The value returned by benchmark_manager::levenshtein_distance:
the bottom-right DP entry. -/
def levenshtein_distance (ref hyp : List String) : Nat :=
  dpEntry ref hyp ref.length hyp.length

/-- One backtracking level of benchmark_manager::levenshtein_distance for a
fixed row i+1, where prev gives the counts reached from cell (i, j) for any j.
On a tie among the three predecessors the code tests dp[i-1][j-1]
(substitution) first, then dp[i-1][j] (deletion), then falls through to
insertion; a matching token pair moves diagonally without counting. -/
def btNext (ref hyp : List String) (prev : Nat → Nat × Nat × Nat) (i : Nat) :
    Nat → Nat × Nat × Nat
  | 0 =>
      let r := prev 0
      (r.1, r.2.1 + 1, r.2.2)
  | j + 1 =>
      if ref.getD i "" = hyp.getD j "" then prev j
      else
        let mv := min (min (dpEntry ref hyp i (j + 1)) (dpEntry ref hyp (i + 1) j))
                      (dpEntry ref hyp i j)
        if dpEntry ref hyp i j = mv then
          let r := prev j
          (r.1 + 1, r.2.1, r.2.2)
        else if dpEntry ref hyp i (j + 1) = mv then
          let r := prev (j + 1)
          (r.1, r.2.1 + 1, r.2.2)
        else
          let r := btNext ref hyp prev i j
          (r.1, r.2.1, r.2.2 + 1)

/-- The counts produced by the backtracking while-loop starting at cell (i, j):
(substitutions, deletions, insertions). -/
def backtrackCounts (ref hyp : List String) : Nat → Nat → Nat × Nat × Nat
  | 0 => fun j => (0, 0, j)
  | i + 1 => btNext ref hyp (backtrackCounts ref hyp i) i

/-- Result of benchmark_manager::calculate_wer: the returned percentage
together with the substitution/deletion/insertion out-parameters (left 0 on
the empty-reference early return, as the C++ leaves them unassigned). -/
structure WerResult where
  wer : ℚ
  subs : Nat
  dels : Nat
  ins : Nat
deriving Repr, DecidableEq

/-- benchmark_manager::calculate_wer. -/
def calculate_wer (reference hypothesis : String) : WerResult :=
  let refWords := tokenize reference
  let hypWords := tokenize hypothesis
  if refWords = [] then
    { wer := if hypWords = [] then 0 else 100, subs := 0, dels := 0, ins := 0 }
  else
    let d := levenshtein_distance refWords hypWords
    let c := backtrackCounts refWords hypWords refWords.length hypWords.length
    { wer := ((d : ℚ) * 100) / (refWords.length : ℚ),
      subs := c.1, dels := c.2.1, ins := c.2.2 }

/-- The per-character reference sequence built by
benchmark_manager::calculate_cer: every non-whitespace character of the
reference, as a single-character string. -/
def cerRefChars (reference : String) : List String :=
  (reference.data.filter (fun c => !isSpaceC c)).map (fun c => String.mk [c])

/-- Same for the hypothesis. -/
def cerHypChars (hypothesis : String) : List String :=
  (hypothesis.data.filter (fun c => !isSpaceC c)).map (fun c => String.mk [c])

/-- benchmark_manager::calculate_cer, over ℚ.  Note the guard tests only
whether the raw reference string is empty, while the divisor is the count of
its non-whitespace characters; in Lean division by zero yields 0, where the
C++ double division has divisor 0.0. -/
def calculate_cer (reference hypothesis : String) : ℚ :=
  if reference = "" then (if hypothesis = "" then 0 else 100)
  else
    ((levenshtein_distance (cerRefChars reference) (cerHypChars hypothesis) : ℚ) * 100) /
      ((cerRefChars reference).length : ℚ)

/-- The character set of the trim calls in benchmark_manager::normalize_text
(find_first_not_of / find_last_not_of with the literal " \t\n\r"). -/
def isTrimWs (c : Char) : Bool :=
  c == ' ' || c == '\t' || c == '\n' || c == '\r'

/-- The std::unique pass of normalize_text: from every maximal run of
consecutive characters in which each adjacent pair is whitespace-whitespace,
keep only the first character.  prev is the last kept character; a candidate
is dropped exactly when both prev and the candidate are whitespace. -/
def uniqueWsGo (prev : Char) : List Char → List Char
  | [] => []
  | d :: ds =>
      if isSpaceC prev && isSpaceC d then uniqueWsGo prev ds
      else d :: uniqueWsGo d ds

/-- std::unique over the whole list with the whitespace-pair predicate. -/
def uniqueWs : List Char → List Char
  | [] => []
  | c :: cs => c :: uniqueWsGo c cs

/-- benchmark_manager::normalize_text: lowercase, collapse whitespace runs to
their first character, trim leading and trailing " \t\n\r". -/
def normalize_text (text : String) : String :=
  let lowered := text.data.map toLowerC
  let collapsed := uniqueWs lowered
  let trimmed := ((collapsed.dropWhile (fun c => isTrimWs c)).reverse.dropWhile
      (fun c => isTrimWs c)).reverse
  String.mk trimmed

/-- benchmark_manager::transcription_segment.  Timestamps are modelled as
Nat milliseconds supplied by the environment. -/
structure Segment where
  text : String
  ty : String
  startTime : Nat
  endTime : Nat
  confidence : ℚ
  audioSamples : Nat
  latencyMs : ℚ
  vadDetected : Bool
  silenceBefore : Int
deriving Repr, DecidableEq

/-- Projection of a segment onto the fields add_vad_decision does not touch. -/
def segProj (g : Segment) : String × String × Nat × Nat × ℚ × Nat × ℚ :=
  (g.text, g.ty, g.startTime, g.endTime, g.confidence, g.audioSamples, g.latencyMs)

/-- Mutable state of a benchmark_manager. -/
structure BMState where
  running : Bool
  segments : List Segment
  vadDecisions : List Bool
  totalSamples : Nat
  lastSegmentTime : Nat
  referenceText : String
  vadGroundTruth : List Bool
  vadFrameMs : ℚ
deriving Repr

/-- The state right after benchmark_manager::start() at time t0: segment and
decision lists cleared, counters zeroed, running. -/
def startedState (t0 : Nat) : BMState :=
  { running := true, segments := [], vadDecisions := [], totalSamples := 0,
    lastSegmentTime := t0, referenceText := "", vadGroundTruth := [], vadFrameMs := 20 }

/-- benchmark_manager::add_transcription at wall-clock time now.  Ignored when
not running; otherwise appends a segment (text normalized, latency falling
back to the inter-call gap when the supplied latency is not positive). -/
def add_transcription (s : BMState) (now : Nat) (text ty : String) (conf : ℚ)
    (samples : Nat) (latency : ℚ) : BMState :=
  if !s.running then s
  else
    let seg : Segment :=
      { text := normalize_text text, ty := ty, startTime := s.lastSegmentTime,
        endTime := now, confidence := conf, audioSamples := samples,
        latencyMs := if latency > 0 then latency else ((now : ℚ) - (s.lastSegmentTime : ℚ)),
        vadDetected := false, silenceBefore := 0 }
    { s with segments := s.segments ++ [seg],
             totalSamples := s.totalSamples + samples,
             lastSegmentTime := now }

/-- Apply f to the last element of the list, if any (the in-place update that
add_vad_decision performs on m_segments.back()). -/
def updLast (f : Segment → Segment) : List Segment → List Segment
  | [] => []
  | [x] => [f x]
  | x :: y :: xs => x :: updLast f (y :: xs)

/-- benchmark_manager::add_vad_decision: records the decision and overwrites
the vad_detected and silence_frames_before fields of the most recent segment
when one exists. -/
def add_vad_decision (s : BMState) (isSpeech : Bool) (silenceBefore : Int) : BMState :=
  if !s.running then s
  else
    { s with vadDecisions := s.vadDecisions ++ [isSpeech],
             segments := updLast
               (fun g => { g with vadDetected := isSpeech, silenceBefore := silenceBefore })
               s.segments }

/-- The writer operations of benchmark_manager after start(); stop only
flips the running flag, get_current_results is const (reads a snapshot). -/
inductive BMOp
  | addTranscription (now : Nat) (text ty : String) (conf : ℚ) (samples : Nat) (latency : ℚ)
  | addVadDecision (isSpeech : Bool) (silenceBefore : Int)
  | stopRun
  | setReferenceText (text : String)
  | setVadGroundTruth (labels : List Bool) (frameMs : ℚ)
  | getCurrentResults

/-- One benchmark_manager operation. -/
def applyBMOp (s : BMState) : BMOp → BMState
  | .addTranscription now text ty conf samples latency =>
      add_transcription s now text ty conf samples latency
  | .addVadDecision isSpeech silenceBefore => add_vad_decision s isSpeech silenceBefore
  | .stopRun => { s with running := false }
  | .setReferenceText text => { s with referenceText := normalize_text text }
  | .setVadGroundTruth labels frameMs =>
      { s with vadGroundTruth := labels, vadFrameMs := frameMs }
  | .getCurrentResults => s

/-- A sequence of benchmark_manager operations. -/
def runBM (s : BMState) (ops : List BMOp) : BMState :=
  ops.foldl applyBMOp s

end benchmark_manager

namespace webrtc_vad

/-- Mutable state of a webrtc_vad instance: the number of complete frames fed
to the fvad classifier so far (the index into the classifier oracle), the
residual sample buffer, and m_last_vad_result. -/
structure State where
  frames : Nat
  buffer : List Int
  lastResult : Bool
deriving Repr, DecidableEq

/-- Freshly constructed instance. -/
def initState : State := { frames := 0, buffer := [], lastResult := false }

/-- The while loop of webrtc_vad::process: as long as the buffer holds at
least one complete frame, classify it and drop it.  The fvad classifier is an
oracle cls indexed by the number of frames it has seen since construction
(fvad is stateful and is never reset, so the index runs across reset() calls);
cls k is the speech verdict for frame k, with classifier errors and the
resulting false returns folded into the oracle.  fuel bounds the iteration
count; every iteration removes frameSize ≥ 1 samples, so fuel = buffer length
is always enough. -/
def consumeFrames (cls : Nat → Bool) (frameSize : Nat) :
    Nat → Nat → List Int → Bool → Nat × List Int × Bool
  | 0, k, buf, any => (k, buf, any)
  | fuel + 1, k, buf, any =>
      if 0 < frameSize ∧ frameSize ≤ buf.length then
        consumeFrames cls frameSize fuel (k + 1) (buf.drop frameSize) (any || cls k)
      else (k, buf, any)

/-- webrtc_vad::process: append the chunk to the residual buffer, classify
every complete frame, set m_last_vad_result to true when any frame was
speech (and leave it unchanged otherwise), and return m_last_vad_result. -/
def process (cls : Nat → Bool) (frameSize : Nat) (s : State) (audio : List Int) :
    State × Bool :=
  let buf := s.buffer ++ audio
  let r := consumeFrames cls frameSize buf.length s.frames buf false
  let last := if r.2.2 then true else s.lastResult
  ({ frames := r.1, buffer := r.2.1, lastResult := last }, last)

/-- webrtc_vad::reset: clears the residual buffer and the last result (the
fvad instance itself has no reset, so the classifier index is preserved). -/
def reset (s : State) : State := { s with buffer := [], lastResult := false }

end webrtc_vad

namespace vstream_engine

/-- Oracle for the opaque Vosk recognizer, indexed by the number of
accept_waveform calls made since construction: accept k is the return code of
the k-th accept_waveform call (positive = utterance complete, 0 = partial,
negative = error), and resultJson / partJson / finalJson k are the strings
vosk_recognizer_result, vosk_recognizer_partial_result and
vosk_recognizer_final_result would return after k accept calls. -/
structure VoskOracle where
  accept : Nat → Int
  resultJson : Nat → String
  partJson : Nat → String
  finalJson : Nat → String

/-- Mutable state of a vstream_engine relevant to process_audio: the oracle
index, m_total_samples, and the function-local static just_got_final flag. -/
structure State where
  acceptCount : Nat
  totalSamples : Nat
  justGotFinal : Bool
deriving Repr, DecidableEq

/-- Freshly constructed engine. -/
def initState : State := { acceptCount := 0, totalSamples := 0, justGotFinal := false }

/-- The chunked feed loop of vstream_engine::process_audio: feed up to 1600
samples (100 ms at 16 kHz) per accept_waveform call; on a positive code
return vosk_recognizer_result immediately (the returned Bool records that a
final was produced); on 0 remember the partial result; on a negative code
keep the previous remembered result.  fuel bounds iterations (each consumes
at least one sample, so fuel = remaining sample count is always enough).
Returns (new accept count, returned string, got-final flag); when the loop
drains the input it returns the last remembered result, which is the empty
string if every accept call failed. -/
def feedLoop (o : VoskOracle) : Nat → Nat → Nat → String → Nat × String × Bool
  | 0, k, _, lastRes => (k, lastRes, false)
  | _ + 1, k, 0, lastRes => (k, lastRes, false)
  | fuel + 1, k, rem + 1, lastRes =>
      let remaining := rem + 1
      let consumed := min 1600 remaining
      if o.accept k > 0 then (k + 1, o.resultJson (k + 1), true)
      else if o.accept k = 0 then
        feedLoop o fuel (k + 1) (remaining - consumed) (o.partJson (k + 1))
      else feedLoop o fuel (k + 1) (remaining - consumed) lastRes

/-- vstream_engine::process_audio.  Empty input without is_final returns the
empty JSON object; non-empty input is fed in chunks (resetting the recognizer
first when the previous call produced a final — recognizer state is abstracted
by the oracle); empty input with is_final=true returns
vosk_recognizer_final_result and records just_got_final. -/
def process_audio (o : VoskOracle) (s : State) (audio : List Int) (isFinal : Bool) :
    State × String :=
  if audio.isEmpty && !isFinal then (s, "\x7b\x7d")
  else
    let s1 : State := { s with totalSamples := s.totalSamples + audio.length }
    if audio.isEmpty then
      ({ s1 with justGotFinal := true }, o.finalJson s1.acceptCount)
    else
      let s2 : State := { s1 with justGotFinal := false }
      let r := feedLoop o audio.length s2.acceptCount audio.length ""
      ({ s2 with acceptCount := r.1, justGotFinal := r.2.2 }, r.2.1)

end vstream_engine

/-- Parse outcome of a recognizer JSON result, at the granularity the audio
processor and the WebSocket audio callback inspect it: whether a non-null
"text" field is present (textF), whether a non-null "partial"-hypothesis
field is present (partF), and the confidence of the first alternative when an
alternatives array with one is present (altConf).  malformed stands for a
string json::parse rejects. -/
inductive RecResult
  | malformed
  | fields (textF : Option String) (partF : Option String) (altConf : Option ℚ)

namespace audio_processor

/-- Configuration of an audio_processor. -/
structure Config where
  useVad : Bool
  silenceThreshold : Nat
  finalizeIntervalMs : Nat
  benchAttached : Bool

/-- Mutable state of an audio_processor; broadcasts is the history of
queue_transcription calls, most recent first, as (text, session) pairs with
the fixed session "mic-capture". -/
structure State where
  wasSpeaking : Bool
  silenceFrames : Nat
  lastFinalizeTime : Nat
  lastFinalText : String
  lastPartText : String
  accSamples : Nat
  broadcasts : List (String × String)

/-- Freshly constructed processor (m_last_finalize_time initialized to the
construction time t0). -/
def initState (t0 : Nat) : State :=
  { wasSpeaking := false, silenceFrames := 0, lastFinalizeTime := t0,
    lastFinalText := "", lastPartText := "", accSamples := 0, broadcasts := [] }

/-- audio_processor::handle_final_result: records the text as the last final,
queues the broadcast with confidence 1.0, submits a benchmark segment and
zeroes the sample counter when a benchmark is attached, and resets the
finalize timer. -/
def handle_final_result (cfg : Config) (s : State) (text : String) (now : Nat) : State :=
  { s with lastFinalText := text,
           broadcasts := (text, "mic-capture") :: s.broadcasts,
           accSamples := if cfg.benchAttached then 0 else s.accSamples,
           lastFinalizeTime := now }

/-- audio_processor::handle_speech_result: a present, non-null, non-empty
"text" differing from the last final is dispatched as final; otherwise, when
partial display is enabled, a present non-empty hypothesis differing from the
last one updates last-hypothesis state (console only — no broadcast); parse
errors are swallowed. -/
def handle_speech_result (cfg : Config) (showPart : Bool) (s : State) (now : Nat) :
    RecResult → State
  | .malformed => s
  | .fields (some text) _ _ =>
      if text ≠ "" ∧ text ≠ s.lastFinalText then handle_final_result cfg s text now
      else s
  | .fields none (some p) _ =>
      if showPart ∧ p ≠ "" ∧ p ≠ s.lastPartText then { s with lastPartText := p }
      else s
  | .fields none none _ => s

/-- audio_processor::force_finalize: flush the engine (the environment
supplies the parse outcome of the empty-audio/final=true response), dispatch
only a fresh non-empty "text" as final, then reset the recognizer and clear
speaking state, silence counter and last-hypothesis text, and restart the
finalize timer. -/
def force_finalize (cfg : Config) (s : State) (now : Nat) : RecResult → State
  | .fields (some text) _ _ =>
      let s1 :=
        if text ≠ "" ∧ text ≠ s.lastFinalText then handle_final_result cfg s text now
        else s
      { s1 with wasSpeaking := false, silenceFrames := 0, lastPartText := "",
                lastFinalizeTime := now }
  | _ => { s with wasSpeaking := false, silenceFrames := 0, lastPartText := "",
                  lastFinalizeTime := now }

/-- The speech branch of audio_processor::process_audio after speaking state
was recorded: dispatch the engine response, then periodic finalization when
finalize_interval_ms has elapsed since the last finalize. -/
def speechPath (cfg : Config) (showPart : Bool) (s1 : State) (resp flush : RecResult)
    (now : Nat) : State :=
  let s2 := handle_speech_result cfg showPart s1 now resp
  if now - s2.lastFinalizeTime ≥ cfg.finalizeIntervalMs then
    let s3 := force_finalize cfg s2 now flush
    { s3 with lastFinalizeTime := now }
  else s2

/-- The silence branch of audio_processor::process_audio (VAD mode): count a
silence frame while speaking and finalize once the threshold is reached. -/
def silencePath (cfg : Config) (s0 : State) (flush : RecResult) (now : Nat) : State :=
  if s0.wasSpeaking then
    let s1 := { s0 with silenceFrames := s0.silenceFrames + 1 }
    if s1.silenceFrames ≥ cfg.silenceThreshold then force_finalize cfg s1 now flush
    else s1
  else s0

/-- audio_processor::process_audio for one chunk.  The VAD verdict (vadSays)
and the parse outcomes of the engine responses (resp for the chunk feed,
flush for a possible periodic force_finalize) are supplied by the
environment; now is the single wall-clock timestamp of the call. -/
def process_audio (cfg : Config) (showPart : Bool) (s : State) (audioLen : Nat)
    (vadSays : Bool) (resp flush : RecResult) (now : Nat) : State :=
  let isSpeech := if cfg.useVad then vadSays else true
  let s0 := { s with accSamples := s.accSamples + audioLen }
  if isSpeech then
    speechPath cfg showPart { s0 with wasSpeaking := true, silenceFrames := 0 }
      resp flush now
  else silencePath cfg s0 flush now

/-- One interaction with the processor: a chunk arrival, or an external
force_finalize call. -/
inductive Step
  | chunk (audioLen : Nat) (vadSays : Bool) (resp flush : RecResult) (now : Nat)
  | finalize (flush : RecResult) (now : Nat)

/-- Apply one step. -/
def runStep (cfg : Config) (showPart : Bool) (s : State) : Step → State
  | .chunk audioLen vadSays resp flush now =>
      process_audio cfg showPart s audioLen vadSays resp flush now
  | .finalize flush now => force_finalize cfg s now flush

/-- Run a whole interaction sequence. -/
def run (cfg : Config) (showPart : Bool) (s : State) (steps : List Step) : State :=
  steps.foldl (runStep cfg showPart) s

end audio_processor

namespace vstream_app

/-- vstream_app::handle_websocket_audio, restricted to its externally visible
broadcast effect: parse the engine response; a present non-null "text" wins
(type final), else a present non-null hypothesis is used (type tentative),
else the empty string; confidence comes from the first alternative when
present, else 1.0; any non-empty text is queued for broadcast on the caller
session.  queued is the broadcast history, most recent first. -/
def handle_websocket_audio (r : RecResult) (sessionId : String)
    (queued : List (String × String × ℚ)) : List (String × String × ℚ) :=
  match r with
  | .malformed => queued
  | .fields tf pf ac =>
    let text :=
      match tf with
      | some t => t
      | none =>
        match pf with
        | some p => p
        | none => ""
    let conf : ℚ := ac.getD 1
    if text ≠ "" then (text, sessionId, conf) :: queued else queued

/-- vstream_app::config with the fields parse_command_line touches plus the
VAD/silence fields the header declares. -/
structure Config where
  modelPath : String := ""
  port : Int := 8080
  speakerModelPath : String := ""
  maxAlternatives : Int := 0
  enablePartialWords : Bool := true
  logLevel : Int := 0
  bufferMs : Int := 100
  silenceMs : Int := 500
  silenceMsSpecified : Bool := false
  finalizeMs : Int := 2000
  useMic : Bool := false
  micDevice : Int := -1
  useVad : Bool := true
  benchmarkEnabled : Bool := false
  benchmarkLive : Bool := false
  benchmarkReferenceFile : String := ""
  benchmarkOutputFile : String := ""
  benchmarkFormat : String := "txt"
deriving Repr, DecidableEq

/-- std::stoi on the numeric argument strings (exceptions on malformed input
are not modelled; the flags under study never reach a conversion). -/
def stoi (s : String) : Int := (s.toInt?).getD 0

/-- vstream_app::parse_command_line over the argument list after the program
name.  Every branch mirrors one else-if of the C++ chain; a flag that takes a
value matches only when a next argument exists (otherwise the C++ condition
fails and control falls through to the throw); --help, -h and --list-devices
are skipped; anything else raises invalid_argument "Unknown argument: ...". -/
def parseArgs (cfg : Config) : List String → Except String Config
  | [] => .ok cfg
  | arg :: rest =>
    if arg = "--model" then
      match rest with
      | v :: rs => parseArgs { cfg with modelPath := v } rs
      | [] => .error ("Unknown argument: " ++ arg)
    else if arg = "--port" then
      match rest with
      | v :: rs => parseArgs { cfg with port := stoi v } rs
      | [] => .error ("Unknown argument: " ++ arg)
    else if arg = "--spk-model" then
      match rest with
      | v :: rs => parseArgs { cfg with speakerModelPath := v } rs
      | [] => .error ("Unknown argument: " ++ arg)
    else if arg = "--alternatives" then
      match rest with
      | v :: rs => parseArgs { cfg with maxAlternatives := stoi v } rs
      | [] => .error ("Unknown argument: " ++ arg)
    else if arg = "--no-partial" then
      parseArgs { cfg with enablePartialWords := false } rest
    else if arg = "--grammar" then
      match rest with
      | _ :: rs => parseArgs cfg rs
      | [] => .error ("Unknown argument: " ++ arg)
    else if arg = "--log-level" then
      match rest with
      | v :: rs => parseArgs { cfg with logLevel := stoi v } rs
      | [] => .error ("Unknown argument: " ++ arg)
    else if arg = "--mic" then
      parseArgs { cfg with useMic := true } rest
    else if arg = "--finalize-ms" then
      match rest with
      | v :: rs => parseArgs { cfg with finalizeMs := stoi v } rs
      | [] => .error ("Unknown argument: " ++ arg)
    else if arg = "--mic-device" then
      match rest with
      | v :: rs => parseArgs { cfg with micDevice := stoi v } rs
      | [] => .error ("Unknown argument: " ++ arg)
    else if arg = "--buffer-ms" then
      match rest with
      | v :: rs => parseArgs { cfg with bufferMs := stoi v } rs
      | [] => .error ("Unknown argument: " ++ arg)
    else if arg = "--benchmark" then
      match rest with
      | v :: rs =>
          parseArgs { cfg with benchmarkReferenceFile := v, benchmarkEnabled := true } rs
      | [] => .error ("Unknown argument: " ++ arg)
    else if arg = "--benchmark-output" then
      match rest with
      | v :: rs => parseArgs { cfg with benchmarkOutputFile := v } rs
      | [] => .error ("Unknown argument: " ++ arg)
    else if arg = "--benchmark-live" then
      parseArgs { cfg with benchmarkEnabled := true, benchmarkLive := true } rest
    else if arg = "--benchmark-format" then
      match rest with
      | v :: rs => parseArgs { cfg with benchmarkFormat := v } rs
      | [] => .error ("Unknown argument: " ++ arg)
    else if arg = "--help" then parseArgs cfg rest
    else if arg = "-h" then parseArgs cfg rest
    else if arg = "--list-devices" then parseArgs cfg rest
    else .error ("Unknown argument: " ++ arg)
  termination_by args => args.length
  decreasing_by all_goals simp_wf <;> omega

/-- parse_command_line on the arguments after argv[0], from the default
configuration. -/
def parse_command_line (args : List String) : Except String Config :=
  parseArgs {} args

end vstream_app

namespace mic_capture

/-- mic_capture::config. -/
structure Config where
  sampleRate : Nat
  channels : Nat
  framesPerBuffer : Nat
  queueSize : Nat
  accumulateMs : Nat
  deviceIndex : Int

/-- m_frames_to_accumulate = sample_rate * accumulate_ms / 1000. -/
def frames_to_accumulate (cfg : Config) : Nat :=
  cfg.sampleRate * cfg.accumulateMs / 1000

/-- Mutable state of a mic_capture seen by the audio callback: the
accumulation buffer, the accumulated frame counter, the bounded queue
(modelled as the list of enqueued chunks, oldest first, with capacity
queueSize), and the dropped-frames counter. -/
structure State where
  accBuf : List Int
  accFrames : Nat
  queue : List (List Int)
  dropped : Nat

/-- State right after start(). -/
def initState : State := { accBuf := [], accFrames := 0, queue := [], dropped := 0 }

/-- mic_capture::pa_callback for one hardware callback delivering frameCount
frames: read frameCount * channels samples from the device buffer into the
accumulation buffer; once the accumulated frame count reaches
frames_to_accumulate, move the whole buffer into the queue (or, if the queue
is full, add the frame count to dropped_frames and discard it) and reset the
accumulator. -/
def pa_callback (cfg : Config) (s : State) (input : List Int) (frameCount : Nat) : State :=
  let sampleCount := frameCount * cfg.channels
  let buf := s.accBuf ++ input.take sampleCount
  let fc := s.accFrames + frameCount
  if fc ≥ frames_to_accumulate cfg then
    if s.queue.length < cfg.queueSize then
      { accBuf := [], accFrames := 0, queue := s.queue ++ [buf], dropped := s.dropped }
    else
      { accBuf := [], accFrames := 0, queue := s.queue, dropped := s.dropped + fc }
  else { s with accBuf := buf, accFrames := fc }

/-- A sequence of hardware callbacks. -/
def runCallbacks (cfg : Config) (s : State) (calls : List (List Int × Nat)) : State :=
  calls.foldl (fun st c => pa_callback cfg st c.1 c.2) s

end mic_capture

/-
  Theorems.  First the Levenshtein development relating the DP table of
  benchmark_manager::levenshtein_distance to the textbook recursive
  Levenshtein distance, then the claim theorems C1 to C10.
-/

namespace benchmark_manager

theorem levSpec_nil_left (ys : List String) : levSpec [] ys = ys.length := by
  simp [levSpec]

theorem levSpec_nil_right (xs : List String) : levSpec xs [] = xs.length := by
  cases xs <;> simp [levSpec]

theorem levSpec_cons_cons (x y : String) (xs ys : List String) :
    levSpec (x :: xs) (y :: ys) =
      if x = y then levSpec xs ys
      else 1 + min (levSpec xs (y :: ys)) (min (levSpec (x :: xs) ys) (levSpec xs ys)) := by
  rw [levSpec]

theorem levSpec_single_mem (x : String) :
    ∀ zs : List String, x ∈ zs → levSpec [x] zs + 1 = zs.length := by
  intro zs
  induction zs with
  | nil => intro h; simp at h
  | cons z t ih =>
    intro hmem
    rw [levSpec_cons_cons]
    by_cases hxz : x = z
    · simp [hxz, levSpec_nil_left]
    · have hx : x ∈ t := by
        rcases List.mem_cons.mp hmem with h | h
        · exact absurd h hxz
        · exact h
      have h2 := ih hx
      rw [if_neg hxz, levSpec_nil_left, levSpec_nil_left]
      simp only [List.length_cons]
      omega

theorem levSpec_single_not_mem (x : String) :
    ∀ zs : List String, zs ≠ [] → x ∉ zs → levSpec [x] zs = zs.length := by
  intro zs
  induction zs with
  | nil => intro h; exact absurd rfl h
  | cons z t ih =>
    intro _ hnm
    have hxz : x ≠ z := fun h => hnm (h ▸ List.mem_cons_self z t)
    have hxt : x ∉ t := fun h => hnm (List.mem_cons_of_mem z h)
    rw [levSpec_cons_cons, if_neg hxz, levSpec_nil_left, levSpec_nil_left]
    cases t with
    | nil => simp [levSpec_nil_right]
    | cons w ws =>
      have h2 : levSpec [x] (w :: ws) = (w :: ws).length :=
        ih (List.cons_ne_nil w ws) hxt
      simp only [List.length_cons] at h2 ⊢
      omega

theorem levSpec_right_single_mem (y : String) :
    ∀ zs : List String, y ∈ zs → levSpec zs [y] + 1 = zs.length := by
  intro zs
  induction zs with
  | nil => intro h; simp at h
  | cons z t ih =>
    intro hmem
    rw [levSpec_cons_cons]
    by_cases hzy : z = y
    · simp [hzy, levSpec_nil_right]
    · have hy : y ∈ t := by
        rcases List.mem_cons.mp hmem with h | h
        · exact absurd h.symm hzy
        · exact h
      have h2 := ih hy
      rw [if_neg hzy, levSpec_nil_right, levSpec_nil_right]
      simp only [List.length_cons]
      omega

theorem levSpec_right_single_not_mem (y : String) :
    ∀ zs : List String, zs ≠ [] → y ∉ zs → levSpec zs [y] = zs.length := by
  intro zs
  induction zs with
  | nil => intro h; exact absurd rfl h
  | cons z t ih =>
    intro _ hnm
    have hzy : z ≠ y := fun h => hnm (h ▸ List.mem_cons_self z t)
    have hyt : y ∉ t := fun h => hnm (List.mem_cons_of_mem z h)
    rw [levSpec_cons_cons, if_neg hzy, levSpec_nil_right, levSpec_nil_right]
    cases t with
    | nil => simp [levSpec_nil_left]
    | cons w ws =>
      have h2 : levSpec (w :: ws) [y] = (w :: ws).length :=
        ih (List.cons_ne_nil w ws) hyt
      simp only [List.length_cons] at h2 ⊢
      omega

end benchmark_manager

namespace benchmark_manager

theorem one_add_min3 (p q r : Nat) :
    min (1 + p) (min (1 + q) (1 + r)) = 1 + min p (min q r) := by omega

theorem levSpec_snoc_nilnil (x y : String) :
    levSpec ([] ++ [x]) ([] ++ [y]) =
      if x = y then levSpec ([] : List String) []
      else 1 + min (levSpec [] ([] ++ [y])) (min (levSpec ([] ++ [x]) []) (levSpec [] [])) := by
  simp only [List.nil_append]
  rw [levSpec_cons_cons]

theorem levSpec_snoc_nilcons (x y b : String) (t : List String) :
    levSpec ([] ++ [x]) ((b :: t) ++ [y]) =
      if x = y then levSpec [] (b :: t)
      else 1 + min (levSpec [] ((b :: t) ++ [y]))
                   (min (levSpec ([] ++ [x]) (b :: t)) (levSpec [] (b :: t))) := by
  simp only [List.nil_append, levSpec_nil_left]
  by_cases hxy : x = y
  · have hm : x ∈ (b :: t) ++ [y] := by simp [hxy]
    have h1 := levSpec_single_mem x _ hm
    rw [if_pos hxy]
    simp only [List.length_append, List.length_cons, List.length_nil] at h1 ⊢
    omega
  · rw [if_neg hxy]
    by_cases hbt : x ∈ b :: t
    · have h1 := levSpec_single_mem x _ (List.mem_append_left [y] hbt)
      have h2 := levSpec_single_mem x _ hbt
      simp only [List.length_append, List.length_cons, List.length_nil] at h1 h2 ⊢
      omega
    · have hnm : x ∉ (b :: t) ++ [y] := by
        simp only [List.mem_append, List.mem_singleton]
        push_neg
        exact ⟨hbt, hxy⟩
      have h1 := levSpec_single_not_mem x _ (by simp) hnm
      have h2 := levSpec_single_not_mem x _ (List.cons_ne_nil b t) hbt
      simp only [List.length_append, List.length_cons, List.length_nil] at h1 h2 ⊢
      omega

theorem levSpec_snoc_consnil (x y a : String) (s : List String) :
    levSpec ((a :: s) ++ [x]) ([] ++ [y]) =
      if x = y then levSpec (a :: s) []
      else 1 + min (levSpec (a :: s) ([] ++ [y]))
                   (min (levSpec ((a :: s) ++ [x]) []) (levSpec (a :: s) [])) := by
  simp only [List.nil_append, levSpec_nil_right]
  by_cases hxy : x = y
  · have hm : y ∈ (a :: s) ++ [x] := by simp [hxy]
    have h1 := levSpec_right_single_mem y _ hm
    rw [if_pos hxy]
    simp only [List.length_append, List.length_cons, List.length_nil] at h1 ⊢
    omega
  · rw [if_neg hxy]
    by_cases has : y ∈ a :: s
    · have h1 := levSpec_right_single_mem y _ (List.mem_append_left [x] has)
      have h2 := levSpec_right_single_mem y _ has
      simp only [List.length_append, List.length_cons, List.length_nil] at h1 h2 ⊢
      omega
    · have hnm : y ∉ (a :: s) ++ [x] := by
        simp only [List.mem_append, List.mem_singleton]
        push_neg
        exact ⟨has, fun h => hxy h.symm⟩
      have h1 := levSpec_right_single_not_mem y _ (by simp) hnm
      have h2 := levSpec_right_single_not_mem y _ (List.cons_ne_nil a s) has
      simp only [List.length_append, List.length_cons, List.length_nil] at h1 h2 ⊢
      omega

set_option maxHeartbeats 1000000 in
theorem levSpec_snoc_aux (x y : String) :
    ∀ n (xs ys : List String), xs.length + ys.length ≤ n →
      levSpec (xs ++ [x]) (ys ++ [y]) =
        if x = y then levSpec xs ys
        else 1 + min (levSpec xs (ys ++ [y]))
                     (min (levSpec (xs ++ [x]) ys) (levSpec xs ys)) := by
  intro n
  induction n with
  | zero =>
    intro xs ys hlen
    have hx : xs = [] := List.length_eq_zero.mp (by omega)
    have hy : ys = [] := List.length_eq_zero.mp (by omega)
    subst hx; subst hy
    exact levSpec_snoc_nilnil x y
  | succ n ih =>
    intro xs ys hlen
    cases xs with
    | nil =>
      cases ys with
      | nil => exact levSpec_snoc_nilnil x y
      | cons b t => exact levSpec_snoc_nilcons x y b t
    | cons a s =>
      cases ys with
      | nil => exact levSpec_snoc_consnil x y a s
      | cons b t =>
        simp only [List.length_cons] at hlen
        have ih1 := ih s t (by omega)
        have ih2 := ih s (b :: t) (by simp only [List.length_cons]; omega)
        have ih3 := ih (a :: s) t (by simp only [List.length_cons]; omega)
        simp only [List.cons_append] at ih2 ih3 ⊢
        simp only [levSpec_cons_cons]
        rw [ih1, ih2, ih3]
        generalize levSpec s (b :: (t ++ [y])) = n6
        generalize levSpec (s ++ [x]) (b :: t) = n5
        generalize levSpec s (b :: t) = n4
        generalize levSpec (a :: (s ++ [x])) t = n9
        generalize levSpec (a :: s) (t ++ [y]) = n8
        generalize levSpec (a :: s) t = n7
        generalize levSpec s (t ++ [y]) = n2
        generalize levSpec (s ++ [x]) t = n3
        generalize levSpec s t = n1
        split_ifs <;> first
          | rfl
          | (rw [one_add_min3, one_add_min3]; ac_rfl)

theorem levSpec_snoc (x y : String) (xs ys : List String) :
    levSpec (xs ++ [x]) (ys ++ [y]) =
      if x = y then levSpec xs ys
      else 1 + min (levSpec xs (ys ++ [y]))
                   (min (levSpec (xs ++ [x]) ys) (levSpec xs ys)) :=
  levSpec_snoc_aux x y (xs.length + ys.length) xs ys le_rfl

end benchmark_manager

namespace benchmark_manager

theorem take_succ_getD {α : Type} (l : List α) (i : Nat) (d : α) (h : i < l.length) :
    l.take (i + 1) = l.take i ++ [l.getD i d] := by
  rw [List.take_succ]
  congr 1
  have h2 : l[i]? = some (l.get ⟨i, h⟩) := by
    rw [← List.get?_eq_getElem?]
    exact List.get?_eq_get h
  simp [h2]

theorem dpEntry_take (ref hyp : List String) :
    ∀ i, i ≤ ref.length → ∀ j, j ≤ hyp.length →
      dpEntry ref hyp i j = levSpec (ref.take i) (hyp.take j) := by
  intro i
  induction i with
  | zero =>
    intro _ j hj
    show j = levSpec (ref.take 0) (hyp.take j)
    rw [List.take_zero, levSpec_nil_left, List.length_take]
    omega
  | succ i ih =>
    intro hi j
    have hi2 : i ≤ ref.length := Nat.le_of_succ_le hi
    have hi3 : i < ref.length := hi
    induction j with
    | zero =>
      intro _
      show i + 1 = levSpec (ref.take (i + 1)) (hyp.take 0)
      rw [List.take_zero, levSpec_nil_right, List.length_take]
      omega
    | succ j ihj =>
      intro hj
      have hj2 : j ≤ hyp.length := Nat.le_of_succ_le hj
      have hj3 : j < hyp.length := hj
      show (if ref.getD i "" = hyp.getD j "" then dpEntry ref hyp i j
            else 1 + min (min (dpEntry ref hyp i (j + 1)) (dpEntry ref hyp (i + 1) j))
                         (dpEntry ref hyp i j)) =
          levSpec (ref.take (i + 1)) (hyp.take (j + 1))
      rw [ih hi2 (j + 1) hj, ihj hj2, ih hi2 j hj2]
      rw [take_succ_getD ref i "" hi3, take_succ_getD hyp j "" hj3, levSpec_snoc]
      split_ifs <;> omega

theorem levenshtein_distance_eq_levSpec (ref hyp : List String) :
    levenshtein_distance ref hyp = levSpec ref hyp := by
  have h := dpEntry_take ref hyp ref.length le_rfl hyp.length le_rfl
  simpa [levenshtein_distance, List.take_length] using h

end benchmark_manager

namespace benchmark_manager

/-- C4: calculate_wer(ref, hyp) returns 100 * d / |tokenize(ref)| where d is
the token-level Levenshtein distance (unit costs) between tokenize(ref) and
tokenize(hyp); when tokenize(ref) is empty it returns 0 if tokenize(hyp) is
empty and 100 otherwise; the backtracked counts (with the code's tie priority
substitution over deletion over insertion) give substitutions=2, deletions=0,
insertions=0 and WER=50.0 on ("the quick brown fox", "the quik brown dog"). -/
theorem C4_calculate_wer_correct :
    (∀ ref hyp : String,
        (calculate_wer ref hyp).wer =
          if tokenize ref = [] then (if tokenize hyp = [] then 0 else 100)
          else 100 * (levSpec (tokenize ref) (tokenize hyp) : ℚ) /
                 ((tokenize ref).length : ℚ)) ∧
    calculate_wer "the quick brown fox" "the quik brown dog" =
      { wer := 50, subs := 2, dels := 0, ins := 0 } := by
  constructor
  · intro ref hyp
    by_cases h : tokenize ref = []
    · simp [calculate_wer, h]
    · simp only [calculate_wer, h, if_neg, if_false, ite_false]
      rw [levenshtein_distance_eq_levSpec]
      ring_nf
  · have h1 : tokenize "the quick brown fox" = ["the", "quick", "brown", "fox"] := by decide
    have h2 : tokenize "the quik brown dog" = ["the", "quik", "brown", "dog"] := by decide
    have h3 : levenshtein_distance ["the", "quick", "brown", "fox"]
        ["the", "quik", "brown", "dog"] = 2 := by decide
    have h4 : backtrackCounts ["the", "quick", "brown", "fox"]
        ["the", "quik", "brown", "dog"] 4 4 = (2, 0, 0) := by decide
    simp [calculate_wer, h1, h2, h3, h4]
    norm_num

/-- C10: the division-by-zero guard of calculate_cer tests only whether the
raw reference string is empty, while the divisor is the number of
non-whitespace reference characters: for every non-empty all-whitespace
reference the guard passes, the per-character reference sequence is empty,
and the division distance * 100 / ref_chars.size() is executed with divisor
zero (the C++ divides 0.0 into a double there). -/
theorem C10_cer_divisor_zero :
    ∀ ref hyp : String, ref ≠ "" → (∀ c ∈ ref.data, isSpaceC c = true) →
      cerRefChars ref = [] ∧
      calculate_cer ref hyp =
        ((levenshtein_distance ([] : List String) (cerHypChars hyp) : ℚ) * 100) / ((0 : ℚ)) := by
  intro ref hyp h1 h2
  have hf : cerRefChars ref = [] := by
    have : ref.data.filter (fun c => !isSpaceC c) = [] := by
      rw [List.filter_eq_nil_iff]
      intro c hc
      simp [h2 c hc]
    simp [cerRefChars, this]
  refine ⟨hf, ?_⟩
  rw [calculate_cer, if_neg h1, hf]
  simp

/-- Witness for C10 at the concrete reference " " (a single space). -/
theorem C10_cer_divisor_zero_witness :
    (" " ≠ "") ∧ (∀ c ∈ (" ").data, isSpaceC c = true) ∧ cerRefChars " " = [] :=
  ⟨by decide, by decide, (C10_cer_divisor_zero " " "x" (by decide) (by decide)).1⟩

end benchmark_manager


/-- C1 (evaluation at the failing input): with a frame classifier that marks
frame 0 as speech and every later frame as non-speech (frame size 2 samples),
the first process call returns true; the second call consumes exactly one
complete frame, classified non-speech (frames processed becomes 2 and the
classifier verdict for frame 1 is false), yet process still returns true —
m_last_vad_result is latched to true and never cleared by non-speech frames,
while the claim (and the header documentation) requires false here. -/
theorem C1_process_latches_speech_result :
    (webrtc_vad.process (fun k => k == 0) 2 webrtc_vad.initState [0, 0]).2 = true ∧
    (webrtc_vad.process (fun k => k == 0) 2
        (webrtc_vad.process (fun k => k == 0) 2 webrtc_vad.initState [0, 0]).1 [0, 0]).1.frames = 2 ∧
    ((fun k => k == 0) 1) = false ∧
    (webrtc_vad.process (fun k => k == 0) 2
        (webrtc_vad.process (fun k => k == 0) 2 webrtc_vad.initState [0, 0]).1 [0, 0]).2 = true := by
  decide

namespace vstream_engine

theorem feedLoop_zero_rem (o : VoskOracle) (fuel k : Nat) (lastRes : String) :
    feedLoop o fuel k 0 lastRes = (k, lastRes, false) := by
  cases fuel <;> rfl

theorem feedLoop_all_zero_accept (o : VoskOracle) (h0 : ∀ k, o.accept k = 0) :
    ∀ fuel k rem lastRes, 0 < rem → rem ≤ fuel →
      ∃ k2, (feedLoop o fuel k rem lastRes).2.1 = o.partJson k2 := by
  intro fuel
  induction fuel with
  | zero => intro k rem lastRes h1 h2; omega
  | succ fuel ih =>
    intro k rem lastRes h1 _
    match rem, h1 with
    | r + 1, _ =>
      rw [feedLoop]
      have ha := h0 k
      rw [ha]
      simp only [lt_irrefl, if_false, if_pos rfl, reduceIte]
      by_cases hz : r + 1 - min 1600 (r + 1) = 0
      · rw [hz, feedLoop_zero_rem]
        exact ⟨k + 1, rfl⟩
      · exact ih (k + 1) (r + 1 - min 1600 (r + 1)) (o.partJson (k + 1))
          (Nat.pos_of_ne_zero hz) (by omega)

end vstream_engine

namespace vstream_engine

/-- C2 (counterexample): with a recognizer whose accept_waveform never
reports a completed utterance (code 0) and whose extraction calls return the
distinct strings "r" (vosk_recognizer_result), "p"
(vosk_recognizer_partial_result) and "f" (vosk_recognizer_final_result), a
call process_audio([one sample], is_final=true) returns "p" — the partial
extraction — and not the forced-final extraction "f" (nor a mid-feed final
"r"): for non-empty input the is_final flag never forces a final. -/
theorem C2_nonempty_final_not_forced :
    (process_audio
        { accept := fun _ => 0, resultJson := fun _ => "r",
          partJson := fun _ => "p", finalJson := fun _ => "f" }
        initState [0] true).2 = "p" ∧
    ("p" : String) ≠ "f" ∧ ("p" : String) ≠ "r" := by
  refine ⟨?_, by decide, by decide⟩
  rfl

/-- C2 (amended): process_audio forces a final extraction only when the
sample vector is empty: for every oracle and state, empty samples with
is_final=true return vosk_recognizer_final_result and set just_got_final;
for non-empty samples is_final is ignored — if the first accept_waveform call
reports a completed utterance the wrapper returns that mid-feed
vosk_recognizer_result (with is_final either value), and if no accept call
ever completes an utterance the wrapper returns a partial-result extraction. -/
theorem C2_final_extraction_only_for_empty_input :
    (∀ (o : VoskOracle) (s : State),
        (process_audio o s [] true).2 = o.finalJson s.acceptCount ∧
        (process_audio o s [] true).1.justGotFinal = true) ∧
    (∀ (o : VoskOracle) (s : State) (audio : List Int),
        audio ≠ [] → o.accept s.acceptCount > 0 →
        (process_audio o s audio false).2 = o.resultJson (s.acceptCount + 1) ∧
        (process_audio o s audio true).2 = o.resultJson (s.acceptCount + 1)) ∧
    (∀ (o : VoskOracle) (s : State) (audio : List Int),
        audio ≠ [] → (∀ k, o.accept k = 0) →
        ∃ k2, (process_audio o s audio true).2 = o.partJson k2) := by
  refine ⟨?_, ?_, ?_⟩
  · intro o s
    constructor <;> rfl
  · intro o s audio hne hacc
    cases audio with
    | nil => exact absurd rfl hne
    | cons a as =>
      constructor <;>
        · show (feedLoop o (as.length + 1) s.acceptCount (as.length + 1) "").2.1 = _
          rw [feedLoop, if_pos hacc]
  · intro o s audio hne h0
    cases audio with
    | nil => exact absurd rfl hne
    | cons a as =>
      show ∃ k2, (feedLoop o (as.length + 1) s.acceptCount (as.length + 1) "").2.1 = _
      exact feedLoop_all_zero_accept o h0 (as.length + 1) s.acceptCount (as.length + 1) ""
        (Nat.succ_pos _) le_rfl

/-- Witness for C2 amended at concrete oracles and the one-sample input. -/
theorem C2_final_extraction_only_for_empty_input_witness :
    (([0] : List Int) ≠ []) ∧
    ((1 : Int) > 0) ∧
    (process_audio
        { accept := fun _ => 1, resultJson := fun _ => "r",
          partJson := fun _ => "p", finalJson := fun _ => "f" }
        initState [0] true).2 = "r" ∧
    (∃ k2, (process_audio
        { accept := fun _ => 0, resultJson := fun _ => "r",
          partJson := fun _ => "p", finalJson := fun _ => "f" }
        initState [0] true).2 =
      ({ accept := fun _ => 0, resultJson := fun _ => "r",
         partJson := fun _ => "p", finalJson := fun _ => "f" } : VoskOracle).partJson k2) :=
  ⟨by decide, by decide,
    (C2_final_extraction_only_for_empty_input.2.1
      { accept := fun _ => 1, resultJson := fun _ => "r",
        partJson := fun _ => "p", finalJson := fun _ => "f" }
      initState [0] (by decide) (by decide)).2,
    C2_final_extraction_only_for_empty_input.2.2
      { accept := fun _ => 0, resultJson := fun _ => "r",
        partJson := fun _ => "p", finalJson := fun _ => "f" }
      initState [0] (by decide) (fun _ => rfl)⟩

end vstream_engine

namespace audio_processor

/-- Adjacent broadcasts carry different texts (the session is the fixed
"mic-capture" literal for every processor broadcast). -/
def chainOk : List (String × String) → Prop
  | [] => True
  | [_] => True
  | a :: b :: t => a.1 ≠ b.1 ∧ chainOk (b :: t)

/-- Invariant tying the broadcast history to the duplicate filter: adjacent
broadcasts differ, and the most recent broadcast text is m_last_final_text. -/
def DedupInv (s : State) : Prop :=
  chainOk s.broadcasts ∧
  ∀ b bs, s.broadcasts = b :: bs → b.1 = s.lastFinalText

theorem dedupInv_of_fields (s1 s2 : State) (hb : s2.broadcasts = s1.broadcasts)
    (hf : s2.lastFinalText = s1.lastFinalText) (h : DedupInv s1) : DedupInv s2 := by
  unfold DedupInv at h ⊢
  rw [hb, hf]
  exact h

theorem dedupInv_init (t0 : Nat) : DedupInv (initState t0) := by
  constructor
  · exact trivial
  · intro b bs hb
    simp [initState] at hb

theorem dedupInv_handle_final_result (cfg : Config) (s : State) (text : String) (now : Nat)
    (h : DedupInv s) (hne : text ≠ s.lastFinalText) :
    DedupInv (handle_final_result cfg s text now) := by
  obtain ⟨h1, h2⟩ := h
  constructor
  · show chainOk ((text, "mic-capture") :: s.broadcasts)
    cases hb : s.broadcasts with
    | nil => exact trivial
    | cons c cs =>
      show (text, "mic-capture").1 ≠ c.1 ∧ chainOk (c :: cs)
      refine ⟨?_, hb ▸ h1⟩
      rw [h2 c cs hb]
      exact hne
  · intro b bs hb
    have : b = (text, "mic-capture") := by
      have : (text, "mic-capture") :: s.broadcasts = b :: bs := hb
      exact (List.cons.injEq _ _ _ _ ▸ this).1.symm
    rw [this]
    rfl

theorem dedupInv_handle_speech_result (cfg : Config) (showPart : Bool) (s : State)
    (now : Nat) (r : RecResult) (h : DedupInv s) :
    DedupInv (handle_speech_result cfg showPart s now r) := by
  cases r with
  | malformed => exact h
  | fields tf pf ac =>
    cases tf with
    | some text =>
      show DedupInv (if text ≠ "" ∧ text ≠ s.lastFinalText
          then handle_final_result cfg s text now else s)
      by_cases hg : text ≠ "" ∧ text ≠ s.lastFinalText
      · rw [if_pos hg]
        exact dedupInv_handle_final_result cfg s text now h hg.2
      · rw [if_neg hg]
        exact h
    | none =>
      cases pf with
      | some p =>
        show DedupInv (if showPart ∧ p ≠ "" ∧ p ≠ s.lastPartText
            then { s with lastPartText := p } else s)
        by_cases hg : showPart ∧ p ≠ "" ∧ p ≠ s.lastPartText
        · rw [if_pos hg]
          exact dedupInv_of_fields s _ rfl rfl h
        · rw [if_neg hg]
          exact h
      | none => exact h

theorem dedupInv_force_finalize (cfg : Config) (s : State) (now : Nat) (flush : RecResult)
    (h : DedupInv s) : DedupInv (force_finalize cfg s now flush) := by
  cases flush with
  | malformed => exact dedupInv_of_fields s _ rfl rfl h
  | fields tf pf ac =>
    cases tf with
    | some text =>
      by_cases hg : text ≠ "" ∧ text ≠ s.lastFinalText
      · show DedupInv { (if text ≠ "" ∧ text ≠ s.lastFinalText
            then handle_final_result cfg s text now else s) with
            wasSpeaking := false, silenceFrames := 0, lastPartText := "",
            lastFinalizeTime := now }
        rw [if_pos hg]
        exact dedupInv_of_fields _ _ rfl rfl
          (dedupInv_handle_final_result cfg s text now h hg.2)
      · show DedupInv { (if text ≠ "" ∧ text ≠ s.lastFinalText
            then handle_final_result cfg s text now else s) with
            wasSpeaking := false, silenceFrames := 0, lastPartText := "",
            lastFinalizeTime := now }
        rw [if_neg hg]
        exact dedupInv_of_fields s _ rfl rfl h
    | none => exact dedupInv_of_fields s _ rfl rfl h

theorem dedupInv_speechPath (cfg : Config) (showPart : Bool) (s1 : State)
    (resp flush : RecResult) (now : Nat) (h : DedupInv s1) :
    DedupInv (speechPath cfg showPart s1 resp flush now) := by
  unfold speechPath
  dsimp only
  have h2 := dedupInv_handle_speech_result cfg showPart s1 now resp h
  split
  · exact dedupInv_of_fields _ _ rfl rfl
      (dedupInv_force_finalize cfg _ now flush h2)
  · exact h2

theorem dedupInv_silencePath (cfg : Config) (s0 : State) (flush : RecResult) (now : Nat)
    (h : DedupInv s0) : DedupInv (silencePath cfg s0 flush now) := by
  unfold silencePath
  dsimp only
  split
  · split
    · exact dedupInv_force_finalize cfg _ now flush
        (dedupInv_of_fields s0 _ rfl rfl h)
    · exact dedupInv_of_fields s0 _ rfl rfl h
  · exact h

theorem dedupInv_process_audio (cfg : Config) (showPart : Bool) (s : State)
    (audioLen : Nat) (vadSays : Bool) (resp flush : RecResult) (now : Nat)
    (h : DedupInv s) :
    DedupInv (process_audio cfg showPart s audioLen vadSays resp flush now) := by
  unfold process_audio
  dsimp only
  split <;> split <;>
    first
      | exact dedupInv_speechPath cfg showPart _ resp flush now
          (dedupInv_of_fields s _ rfl rfl h)
      | exact dedupInv_silencePath cfg _ flush now (dedupInv_of_fields s _ rfl rfl h)

theorem dedupInv_runStep (cfg : Config) (showPart : Bool) (s : State) (st : Step)
    (h : DedupInv s) : DedupInv (runStep cfg showPart s st) := by
  cases st with
  | chunk audioLen vadSays resp flush now =>
    exact dedupInv_process_audio cfg showPart s audioLen vadSays resp flush now h
  | finalize flush now => exact dedupInv_force_finalize cfg s now flush h

theorem dedupInv_run (cfg : Config) (showPart : Bool) :
    ∀ (steps : List Step) (s : State), DedupInv s → DedupInv (run cfg showPart s steps) := by
  intro steps
  induction steps with
  | nil => intro s h; exact h
  | cons st rest ih =>
    intro s h
    exact ih (runStep cfg showPart s st) (dedupInv_runStep cfg showPart s st h)

end audio_processor

namespace audio_processor

/-- C5: broadcasts of one audio_processor instance never repeat the same text
in consecutive positions (all processor broadcasts use the fixed session
"mic-capture"): for every configuration, partial-display setting,
construction time and interaction sequence, the broadcast history is
adjacent-distinct; and the S3 scenario — VAD off, three chunks whose engine
output parses to text "duplicate text" — yields exactly one broadcast. -/
theorem C5_no_consecutive_duplicate_broadcasts :
    (∀ (cfg : Config) (showPart : Bool) (t0 : Nat) (steps : List Step),
        chainOk (run cfg showPart (initState t0) steps).broadcasts) ∧
    (run { useVad := false, silenceThreshold := 2, finalizeIntervalMs := 2000,
           benchAttached := false } true (initState 0)
        [Step.chunk 1600 true (.fields (some "duplicate text") none none)
            (.fields none none none) 0,
         Step.chunk 1600 true (.fields (some "duplicate text") none none)
            (.fields none none none) 0,
         Step.chunk 1600 true (.fields (some "duplicate text") none none)
            (.fields none none none) 0]).broadcasts
      = [("duplicate text", "mic-capture")] := by
  constructor
  · intro cfg showPart t0 steps
    exact (dedupInv_run cfg showPart steps (initState t0) (dedupInv_init t0)).1
  · rfl

/-- C9: the duplicate-final filter persists across utterance boundaries:
force_finalize always clears m_last_partial_text; any number of
force_finalize calls whose flush yields no "text" field leave
m_last_final_text and the broadcast history untouched; and a result (or
flush) whose text equals the current m_last_final_text is suppressed —
broadcasts are unchanged — regardless of how many finalizations happened in
between. -/
theorem C9_dedup_filter_survives_force_finalize :
    (∀ (cfg : Config) (s : State) (now : Nat) (flush : RecResult),
        (force_finalize cfg s now flush).lastPartText = "") ∧
    (∀ (cfg : Config) (s : State) (pf2 : Option String) (ac2 : Option ℚ)
        (nows : List Nat),
        ((nows.foldl (fun st nw => force_finalize cfg st nw (.fields none pf2 ac2)) s).lastFinalText
            = s.lastFinalText) ∧
        ((nows.foldl (fun st nw => force_finalize cfg st nw (.fields none pf2 ac2)) s).broadcasts
            = s.broadcasts)) ∧
    (∀ (cfg : Config) (showPart : Bool) (s : State) (now : Nat)
        (pf : Option String) (ac : Option ℚ),
        (handle_speech_result cfg showPart s now
            (.fields (some s.lastFinalText) pf ac)).broadcasts = s.broadcasts) ∧
    (∀ (cfg : Config) (s : State) (now : Nat) (pf : Option String) (ac : Option ℚ),
        (force_finalize cfg s now (.fields (some s.lastFinalText) pf ac)).broadcasts
          = s.broadcasts) := by
  refine ⟨?_, ?_, ?_, ?_⟩
  · intro cfg s now flush
    cases flush with
    | malformed => rfl
    | fields tf pf ac => cases tf <;> rfl
  · intro cfg s pf2 ac2 nows
    induction nows generalizing s with
    | nil => exact ⟨rfl, rfl⟩
    | cons nw rest ih =>
      simp only [List.foldl_cons]
      have h := ih (force_finalize cfg s nw (.fields none pf2 ac2))
      exact ⟨h.1, h.2⟩
  · intro cfg showPart s now pf ac
    show (if s.lastFinalText ≠ "" ∧ s.lastFinalText ≠ s.lastFinalText
        then handle_final_result cfg s s.lastFinalText now else s).broadcasts = s.broadcasts
    simp
  · intro cfg s now pf ac
    show ({ (if s.lastFinalText ≠ "" ∧ s.lastFinalText ≠ s.lastFinalText
        then handle_final_result cfg s s.lastFinalText now else s) with
        wasSpeaking := false, silenceFrames := 0, lastPartText := "",
        lastFinalizeTime := now } : State).broadcasts = s.broadcasts
    simp

/-- C3 (counterexample): the WebSocket audio callback broadcasts a
partial-only recognizer result: when the engine output parses to a
hypothesis-only result with text "hello", handle_websocket_audio queues
("hello", session, confidence 1.0) — partial text does reach
queue_transcription on this path. -/
theorem C3_websocket_broadcasts_partial :
    vstream_app.handle_websocket_audio (.fields none (some "hello") none) "client-1" []
      = [("hello", "client-1", 1)] := rfl

/-- C3 (amended): the audio processor never broadcasts partial text — a
recognizer result without a "text" field (hypothesis-only or malformed)
leaves the broadcast history unchanged on both the per-chunk dispatch and the
force_finalize flush path — but the WebSocket audio callback queues any
non-empty hypothesis text for broadcast (with the first alternative's
confidence, defaulting to 1.0). -/
theorem C3_partial_never_broadcast_by_processor_only :
    (∀ (cfg : Config) (showPart : Bool) (s : State) (now : Nat)
        (pf : Option String) (ac : Option ℚ),
        (handle_speech_result cfg showPart s now (.fields none pf ac)).broadcasts
          = s.broadcasts) ∧
    (∀ (cfg : Config) (showPart : Bool) (s : State) (now : Nat),
        (handle_speech_result cfg showPart s now .malformed).broadcasts = s.broadcasts) ∧
    (∀ (cfg : Config) (s : State) (now : Nat) (pf : Option String) (ac : Option ℚ),
        (force_finalize cfg s now (.fields none pf ac)).broadcasts = s.broadcasts) ∧
    (∀ (cfg : Config) (s : State) (now : Nat),
        (force_finalize cfg s now .malformed).broadcasts = s.broadcasts) ∧
    (∀ (p sess : String) (q : List (String × String × ℚ)) (ac : Option ℚ),
        vstream_app.handle_websocket_audio (.fields none (some p) ac) sess q
          = if p = "" then q else (p, sess, ac.getD 1) :: q) := by
  refine ⟨?_, ?_, ?_, ?_, ?_⟩
  · intro cfg showPart s now pf ac
    cases pf with
    | none => rfl
    | some p =>
      show (if showPart ∧ p ≠ "" ∧ p ≠ s.lastPartText
          then { s with lastPartText := p } else s).broadcasts = s.broadcasts
      split <;> rfl
  · intro cfg showPart s now
    rfl
  · intro cfg s now pf ac
    rfl
  · intro cfg s now
    rfl
  · intro p sess q ac
    show (if p ≠ "" then (p, sess, ac.getD 1) :: q else q)
      = if p = "" then q else (p, sess, ac.getD 1) :: q
    by_cases hp : p = "" <;> simp [hp]

end audio_processor

namespace mic_capture

/-- Structural invariant of the capture state under the hardware-callback
contract (each callback delivers frameCount * channels samples): the
accumulation buffer always holds exactly accFrames * channels samples, and
every chunk already enqueued holds at least
frames_to_accumulate * channels samples. -/
def MicInv (cfg : Config) (s : State) : Prop :=
  s.accBuf.length = s.accFrames * cfg.channels ∧
  ∀ c ∈ s.queue, frames_to_accumulate cfg * cfg.channels ≤ c.length

theorem micInv_init (cfg : Config) : MicInv cfg initState := by
  constructor
  · simp [initState]
  · intro c hc
    simp [initState] at hc

theorem micInv_pa_callback (cfg : Config) (s : State) (input : List Int) (frameCount : Nat)
    (hlen : input.length = frameCount * cfg.channels) (h : MicInv cfg s) :
    MicInv cfg (pa_callback cfg s input frameCount) := by
  obtain ⟨h1, h2⟩ := h
  have htake : (input.take (frameCount * cfg.channels)).length = frameCount * cfg.channels := by
    rw [List.length_take, hlen, min_self]
  have hbuf : (s.accBuf ++ input.take (frameCount * cfg.channels)).length
      = (s.accFrames + frameCount) * cfg.channels := by
    rw [List.length_append, h1, htake, Nat.add_mul]
  unfold pa_callback
  dsimp only
  split
  · rename_i hge
    split
    · constructor
      · simp
      · intro c hc
        rcases List.mem_append.mp hc with hold | hnew
        · exact h2 c hold
        · have : c = s.accBuf ++ input.take (frameCount * cfg.channels) := by
            simpa using hnew
          rw [this, hbuf]
          exact Nat.mul_le_mul_right cfg.channels hge
    · exact ⟨by simp, h2⟩
  · exact ⟨hbuf, h2⟩

theorem micInv_runCallbacks (cfg : Config) :
    ∀ (calls : List (List Int × Nat)) (s : State),
      (∀ c ∈ calls, (c.1).length = c.2 * cfg.channels) →
      MicInv cfg s → MicInv cfg (runCallbacks cfg s calls) := by
  intro calls
  induction calls with
  | nil => intro s _ h; exact h
  | cons c rest ih =>
    intro s hlen h
    have h1 := micInv_pa_callback cfg s c.1 c.2 (hlen c (List.mem_cons_self c rest)) h
    exact ih (pa_callback cfg s c.1 c.2)
      (fun d hd => hlen d (List.mem_cons_of_mem c hd)) h1

/-- C6 (counterexample): with sample_rate 8000 Hz, 1 channel, accumulate_ms 1
(so frames_to_accumulate = 8) and a hardware callback delivering 3 frames per
invocation, the third callback enqueues a chunk of 9 samples per channel —
not the claimed sample_rate * accumulate_ms / 1000 = 8: the enqueue triggers
on accumulated >= threshold, so chunks are exact only when the delivered
frame counts align with the threshold. -/
theorem C6_chunk_longer_than_threshold :
    ((runCallbacks
        { sampleRate := 8000, channels := 1, framesPerBuffer := 3, queueSize := 10,
          accumulateMs := 1, deviceIndex := -1 }
        initState
        [(List.replicate 3 0, 3), (List.replicate 3 0, 3),
         (List.replicate 3 0, 3)]).queue.map List.length) = [9] ∧
    frames_to_accumulate
        { sampleRate := 8000, channels := 1, framesPerBuffer := 3, queueSize := 10,
          accumulateMs := 1, deviceIndex := -1 } = 8 ∧
    (9 : Nat) ≠ 8 := by decide

/-- C6 (amended): under the hardware-callback contract, every chunk the
callback moves into the queue holds at least
sample_rate * accumulate_ms / 1000 samples per channel (at least
frames_to_accumulate * channels samples in total); equality holds exactly
when the accumulated frame count hits the threshold, which the delivered
frame counts need not do. -/
theorem C6_chunk_at_least_threshold :
    ∀ (cfg : Config) (calls : List (List Int × Nat)),
      (∀ c ∈ calls, (c.1).length = c.2 * cfg.channels) →
      ∀ chunk ∈ (runCallbacks cfg initState calls).queue,
        frames_to_accumulate cfg * cfg.channels ≤ chunk.length := by
  intro cfg calls hlen
  exact (micInv_runCallbacks cfg calls initState hlen (micInv_init cfg)).2

/-- Witness for the amended C6 at the concrete three-callback run. -/
theorem C6_chunk_at_least_threshold_witness :
    (∀ c ∈ [((List.replicate 3 0 : List Int), 3), (List.replicate 3 0, 3),
        (List.replicate 3 0, 3)],
      (c.1).length = c.2 * (1 : Nat)) ∧
    ∀ chunk ∈ (runCallbacks
        { sampleRate := 8000, channels := 1, framesPerBuffer := 3, queueSize := 10,
          accumulateMs := 1, deviceIndex := -1 }
        initState
        [(List.replicate 3 0, 3), (List.replicate 3 0, 3),
         (List.replicate 3 0, 3)]).queue,
      frames_to_accumulate
          { sampleRate := 8000, channels := 1, framesPerBuffer := 3, queueSize := 10,
            accumulateMs := 1, deviceIndex := -1 } * 1 ≤ chunk.length :=
  ⟨by decide,
    C6_chunk_at_least_threshold
      { sampleRate := 8000, channels := 1, framesPerBuffer := 3, queueSize := 10,
        accumulateMs := 1, deviceIndex := -1 }
      [(List.replicate 3 0, 3), (List.replicate 3 0, 3), (List.replicate 3 0, 3)]
      (by decide)⟩

end mic_capture

namespace benchmark_manager

theorem updLast_map_segProj (f : Segment → Segment)
    (hf : ∀ g, segProj (f g) = segProj g) :
    ∀ l : List Segment, (updLast f l).map segProj = l.map segProj := by
  intro l
  induction l with
  | nil => rfl
  | cons x xs ih =>
    cases xs with
    | nil => simp [updLast, hf x]
    | cons y ys =>
      show segProj x :: (updLast f (y :: ys)).map segProj = segProj x :: (y :: ys).map segProj
      rw [ih]

theorem applyBMOp_segProj (s : BMState) (op : BMOp) :
    ∃ tail, (applyBMOp s op).segments.map segProj = s.segments.map segProj ++ tail := by
  cases op with
  | addTranscription now text ty conf samples latency =>
    simp only [applyBMOp, add_transcription]
    split
    · exact ⟨[], by simp⟩
    · dsimp only
      exact ⟨_, List.map_append segProj s.segments _⟩
  | addVadDecision isSpeech silenceBefore =>
    simp only [applyBMOp, add_vad_decision]
    split
    · exact ⟨[], by simp⟩
    · dsimp only
      refine ⟨[], ?_⟩
      rw [List.append_nil]
      exact updLast_map_segProj
        (fun g => { g with vadDetected := isSpeech, silenceBefore := silenceBefore })
        (fun g => rfl) s.segments
  | stopRun => exact ⟨[], by simp [applyBMOp]⟩
  | setReferenceText text => exact ⟨[], by simp [applyBMOp]⟩
  | setVadGroundTruth labels frameMs => exact ⟨[], by simp [applyBMOp]⟩
  | getCurrentResults => exact ⟨[], by simp [applyBMOp]⟩

/-- C7 (counterexample): a later add_vad_decision mutates the most recently
appended segment: after add_transcription the single segment carries
vad_detected = false and silence_frames_before = 0, and a following
add_vad_decision(true, 7) overwrites those fields in place to (true, 7). -/
theorem C7_add_vad_decision_mutates_last_segment :
    ((add_transcription (startedState 0) 5 "hello" "final" 1 100 3).segments.map
        (fun g => (g.vadDetected, g.silenceBefore))) = [(false, 0)] ∧
    ((add_vad_decision (add_transcription (startedState 0) 5 "hello" "final" 1 100 3)
        true 7).segments.map
        (fun g => (g.vadDetected, g.silenceBefore))) = [(true, 7)] := by
  constructor <;> rfl

/-- C7 (amended): benchmark transcription segments are append-only in every
field except vad_detected and silence_frames_before: across any sequence of
writer operations, the projections of the already-present segments onto
(text, type, start, end, confidence, audio_samples, processing_latency) form
a prefix of the resulting segment list's projections — only the two VAD
fields of the most recent segment can be overwritten, by add_vad_decision. -/
theorem C7_segments_append_only_outside_vad_fields :
    ∀ (ops : List BMOp) (s : BMState),
      ∃ tail, (runBM s ops).segments.map segProj = s.segments.map segProj ++ tail := by
  intro ops
  induction ops with
  | nil => intro s; exact ⟨[], by simp [runBM]⟩
  | cons op rest ih =>
    intro s
    obtain ⟨t2, h2⟩ := ih (applyBMOp s op)
    obtain ⟨t1, h1⟩ := applyBMOp_segProj s op
    refine ⟨t1 ++ t2, ?_⟩
    show (runBM (applyBMOp s op) rest).segments.map segProj = _
    rw [h2, h1, List.append_assoc]

end benchmark_manager

namespace vstream_app

/-- C8 (evaluation at the failing inputs): parse_command_line rejects both
documented flags: an argument vector containing --no-vad, or --silence-ms
with an in-range value, makes parsing throw invalid_argument
"Unknown argument: ..." — the parser has no case for either flag, although
the config structure declares silence_ms / use_vad and the repository's own
tests expect these vectors to parse. -/
theorem C8_documented_flags_rejected :
    parse_command_line ["--no-vad"] = .error "Unknown argument: --no-vad" ∧
    parse_command_line ["--silence-ms", "400"]
      = .error "Unknown argument: --silence-ms" := by
  constructor <;> simp [parse_command_line, parseArgs]

end vstream_app

end VStream
